import Mathlib

/-!
Verification development for the SwarmCog C++ cognitive microkernel
(`swarmcog_core`).  The data model and the operations of `AgentSpace`
(agentspace.h / the AgentSpace part of microkernel.cpp) and of
`CognitiveMicrokernel` (microkernel.cpp) are embedded shallowly:

* C++ `double` is modelled by `ℚ` (real-number semantics of the
  arithmetic in the source; floating-point rounding is not modelled);
* `std::map` / `std::unordered_map` are association lists with the
  insert-or-assign semantics of `operator[]`;
* `std::unordered_set<AtomId>` index sets are lists with set-like
  insert/erase, only membership being observable;
* UUID generation (`Utils::UUIDGenerator`) is modelled by a counter
  minting distinct strings: only freshness/identity of ids is used;
* wall-clock timestamps (`created_at`, `last_update`, ...) carry no
  information used by any modelled operation and are omitted;
* shared-pointer aliasing of atoms is modelled by addressing atoms
  through their unique ids in the store map.
-/

namespace SwarmCog

/-- Atom and agent identifiers are both `std::string` in types.h. -/
abbrev AtomId := String

/-- Agent identifiers (same underlying string type as `AtomId`). -/
abbrev AgentId := String

/-- `std::clamp(v, lo, hi)` as invoked by the `TruthValue` and
`AttentionValue` constructors in types.h. -/
def cppClamp (v lo hi : ℚ) : ℚ :=
  if v < lo then lo else if hi < v then hi else v

/-- Lookup in an association list modelling `std::map::find` /
`std::unordered_map::find` (keys are unique in these containers). -/
def assocFind {β : Type} (m : List (String × β)) (k : String) : Option β :=
  match m with
  | [] => none
  | (k', v) :: rest => if k' = k then some v else assocFind rest k

/-- `m[k] = v`: the insert-or-assign semantics of `map::operator[]`
followed by assignment, as in `atoms_[id] = atom` or
`beliefs[key] = value`. -/
def assocAssign {β : Type} (m : List (String × β)) (k : String) (v : β) :
    List (String × β) :=
  match m with
  | [] => [(k, v)]
  | (k', v') :: rest =>
      if k' = k then (k, v) :: rest else (k', v') :: assocAssign rest k v

/-- `map::erase(k)`. -/
def assocErase {β : Type} (m : List (String × β)) (k : String) :
    List (String × β) :=
  m.filter (fun p => p.1 ≠ k)

/-- `unordered_set<AtomId>::insert`. -/
def setInsert (l : List AtomId) (id : AtomId) : List AtomId :=
  if id ∈ l then l else id :: l

/-- `unordered_set<AtomId>::erase`. -/
def setErase (l : List AtomId) (id : AtomId) : List AtomId :=
  l.filter (· ≠ id)

/-- `enum class AtomType` from types.h. -/
inductive AtomType where
  | NODE | LINK | AGENT_NODE | CAPABILITY_NODE | GOAL_NODE | BELIEF_NODE
  | MEMORY_NODE | COLLABORATION_LINK | DELEGATION_LINK | TRUST_LINK
  | KNOWLEDGE_LINK | EVALUATION_LINK
deriving DecidableEq

/-- `enum class CognitivePhase` from types.h. -/
inductive CognitivePhase where
  | PERCEPTION | ATTENTION | REASONING | PLANNING | EXECUTION | LEARNING
  | REFLECTION
deriving DecidableEq

/-- `static_cast<int>(phase)`: the enumerator value. -/
def phaseIndex : CognitivePhase → Nat
  | .PERCEPTION => 0
  | .ATTENTION => 1
  | .REASONING => 2
  | .PLANNING => 3
  | .EXECUTION => 4
  | .LEARNING => 5
  | .REFLECTION => 6

/-- `struct TruthValue` (types.h): field defaults are the in-class
initializers `strength = 0.5`, `confidence = 0.0`. -/
structure TruthValue where
  strength : ℚ := 1/2
  confidence : ℚ := 0
deriving DecidableEq

/-- The two-argument `TruthValue(double s, double c)` constructor: it
clamps both components into `[0,1]`. -/
def mkTruthValue (s c : ℚ) : TruthValue :=
  { strength := cppClamp s 0 1, confidence := cppClamp c 0 1 }

/-- `struct AttentionValue` (types.h): in-class initializers are all 0. -/
structure AttentionValue where
  sti : ℚ := 0
  lti : ℚ := 0
  vlti : ℚ := 0
deriving DecidableEq

/-- The three-argument `AttentionValue` constructor: clamps `sti`, `lti`
into `[-1,1]` and `vlti` into `[0,1]`. -/
def mkAttentionValue (s l v : ℚ) : AttentionValue :=
  { sti := cppClamp s (-1) 1, lti := cppClamp l (-1) 1, vlti := cppClamp v 0 1 }

/-- The `Node` / `Link` variant part of an atom: a `Node` carries a
string value, a `Link` carries the ordered ids of the atoms its
`outgoing_` shared pointers designate (ids are unique, so pointer
identity and id identity coincide). -/
inductive AtomPayload where
  | node (value : String)
  | link (outgoing : List AtomId)
deriving DecidableEq

/-- The `Atom` record (agentspace.h): immutable `id_`/`type_`, mutable
`name_`, `truth_value_`, `attention_value_`, `metadata_`, plus the
`Node`/`Link` payload. -/
structure Atom where
  id : AtomId
  type : AtomType
  name : String
  truth_value : TruthValue := {}
  attention_value : AttentionValue := {}
  metadata : List (String × String) := []
  payload : AtomPayload := .node ""
deriving DecidableEq

/-- `av_a.sti + av_a.lti + av_a.vlti`, the ranking key of
`getMostImportantAtoms`. -/
def importance (a : Atom) : ℚ :=
  a.attention_value.sti + a.attention_value.lti + a.attention_value.vlti

/-- The decay step of `AgentSpace::updateAttentionValues` applied to one
atom's attention record: the updates are sequential, each line reading
the values already written by the lines above it. -/
def decayAttention (av : AttentionValue) : AttentionValue :=
  let sti := av.sti * (99/100)
  let lti := av.lti * (999/1000) + sti * (1/1000)
  let vlti := av.vlti * (9999/10000) + lti * (1/10000)
  { sti := sti, lti := lti, vlti := vlti }

/-- `class AgentSpace` (agentspace.h): the atom map, the two index maps,
the attentional-focus list, and the id-generator counter (standing for
the global UUID generator). -/
structure AgentSpace where
  atoms : List (AtomId × Atom) := []
  atoms_by_type : AtomType → List AtomId := fun _ => []
  atoms_by_name : String → List AtomId := fun _ => []
  attentional_focus : List AtomId := []
  next_atom_id : Nat := 0

/-- A fresh `AgentSpace` (its constructor stores only the name, which no
modelled operation reads). -/
def emptySpace : AgentSpace := {}

/-- `AgentSpace::addAtomToIndices`. -/
def AgentSpace.addAtomToIndices (s : AgentSpace) (a : Atom) : AgentSpace :=
  { s with
    atoms_by_type := fun t =>
      if t = a.type then setInsert (s.atoms_by_type t) a.id else s.atoms_by_type t
    atoms_by_name := fun n =>
      if n = a.name then setInsert (s.atoms_by_name n) a.id else s.atoms_by_name n }

/-- `AgentSpace::removeAtomFromIndices`. -/
def AgentSpace.removeAtomFromIndices (s : AgentSpace) (a : Atom) : AgentSpace :=
  { s with
    atoms_by_type := fun t =>
      if t = a.type then setErase (s.atoms_by_type t) a.id else s.atoms_by_type t
    atoms_by_name := fun n =>
      if n = a.name then setErase (s.atoms_by_name n) a.id else s.atoms_by_name n }

/-- `AgentSpace::addAtom`: a null pointer is rejected (returning null),
otherwise `atoms_[id] = atom`, index insertion, and the atom is
returned. -/
def AgentSpace.addAtom (s : AgentSpace) (atom : Option Atom) :
    AgentSpace × Option Atom :=
  match atom with
  | none => (s, none)
  | some a =>
      let s := { s with atoms := assocAssign s.atoms a.id a }
      let s := s.addAtomToIndices a
      (s, some a)

/-- `AgentSpace::removeAtom`: returns false for an unknown id, otherwise
removes the stored atom from the indices and from the map. -/
def AgentSpace.removeAtom (s : AgentSpace) (id : AtomId) : AgentSpace × Bool :=
  match assocFind s.atoms id with
  | none => (s, false)
  | some a =>
      let s := s.removeAtomFromIndices a
      ({ s with atoms := assocErase s.atoms id }, true)

/-- `AgentSpace::getAtom`: map lookup, null for a missing id. -/
def AgentSpace.getAtom (s : AgentSpace) (id : AtomId) : Option Atom :=
  assocFind s.atoms id

/-- `AgentSpace::getAtoms`: all stored atoms. -/
def AgentSpace.getAtoms (s : AgentSpace) : List Atom :=
  s.atoms.map (·.2)

/-- `AgentSpace::getAtomsByType`: resolve the ids of the type-index set
through the atom map, skipping ids that do not resolve. -/
def AgentSpace.getAtomsByType (s : AgentSpace) (t : AtomType) : List Atom :=
  (s.atoms_by_type t).filterMap (fun id => assocFind s.atoms id)

/-- `AgentSpace::getAtomsByName`. -/
def AgentSpace.getAtomsByName (s : AgentSpace) (n : String) : List Atom :=
  (s.atoms_by_name n).filterMap (fun id => assocFind s.atoms id)

/-- `Atom::setName` reached through any shared pointer to the stored
atom: it overwrites `name_` in place and touches no index. -/
def AgentSpace.setAtomName (s : AgentSpace) (id : AtomId) (name : String) :
    AgentSpace :=
  match assocFind s.atoms id with
  | none => s
  | some a => { s with atoms := assocAssign s.atoms id { a with name := name } }

/-- `AgentSpace::addToAttentionalFocus`: erase-remove any existing
occurrence, append, and when the size exceeds 20 erase the front. -/
def AgentSpace.addToAttentionalFocus (s : AgentSpace) (id : AtomId) :
    AgentSpace :=
  let f := s.attentional_focus.filter (· ≠ id)
  let f := f ++ [id]
  let f := if 20 < f.length then f.tail else f
  { s with attentional_focus := f }

/-- `AgentSpace::getAttentionalFocus`. -/
def AgentSpace.getAttentionalFocus (s : AgentSpace) : List AtomId :=
  s.attentional_focus

/-- `AgentSpace::updateAttentionValues`: the decay sweep over all atoms;
each atom's attention record is read, decayed and written back, nothing
else is touched. -/
def AgentSpace.updateAttentionValues (s : AgentSpace) : AgentSpace :=
  { s with
    atoms := s.atoms.map (fun p =>
      (p.1, { p.2 with attention_value := decayAttention p.2.attention_value })) }

/-- Insert an atom into a list sorted by descending importance. -/
def insertByImportance (a : Atom) : List Atom → List Atom
  | [] => [a]
  | b :: rest =>
      if importance b ≤ importance a then a :: b :: rest
      else b :: insertByImportance a rest

/-- Sort a list of atoms by descending importance. -/
def sortByImportance : List Atom → List Atom
  | [] => []
  | a :: rest => insertByImportance a (sortByImportance rest)

/-- `AgentSpace::getMostImportantAtoms`: sort all atoms by descending
`sti+lti+vlti` and truncate to `limit` (`std::sort` leaves tie order
unspecified; the model uses a deterministic comparison sort over the
same key). -/
def AgentSpace.getMostImportantAtoms (s : AgentSpace) (limit : Nat) :
    List Atom :=
  (sortByImportance s.getAtoms).take limit

/-- `AgentSpace::addMemoryNode`: a fresh `MEMORY_NODE` named
`memory_<uuid>` whose value is the content, with `memory_type` metadata
and the canonical `(0.5, 0, 0.3)` attention default, added to the
store. -/
def AgentSpace.addMemoryNode (s : AgentSpace) (content ty : String) :
    AgentSpace × Atom :=
  let id : AtomId := "uuid-" ++ toString s.next_atom_id
  let node : Atom :=
    { id := id, type := .MEMORY_NODE, name := "memory_" ++ id,
      metadata := [("memory_type", ty)],
      attention_value := mkAttentionValue (1/2) 0 (3/10),
      payload := .node content }
  let s := { s with next_atom_id := s.next_atom_id + 1 }
  ((s.addAtom (some node)).1, node)

/-- `AgentSpace::addTrustRelationship`: both endpoints must resolve,
then a binary `TRUST_LINK` is created whose truth value is
`TruthValue(trust_level, 0.5)` (clamped by that constructor) and added
to the store; a missing endpoint yields null and no mutation. -/
def AgentSpace.addTrustRelationship (s : AgentSpace) (a1 a2 : AgentId)
    (trust_level : ℚ) : AgentSpace × Option Atom :=
  match s.getAtom a1, s.getAtom a2 with
  | some _, some _ =>
      let id : AtomId := "uuid-" ++ toString s.next_atom_id
      let link : Atom :=
        { id := id, type := .TRUST_LINK, name := "atom_" ++ id,
          truth_value := mkTruthValue trust_level (1/2),
          metadata := [("trust_level", toString trust_level)],
          payload := .link [a1, a2] }
      let s := { s with next_atom_id := s.next_atom_id + 1 }
      s.addAtom (some link)
  | _, _ => (s, none)

/-- The whitespace set of `StringUtils::trim` (" \t\n\r\f\v"). -/
def isCppSpace (c : Char) : Bool :=
  c = ' ' || c = '\t' || c = '\n' || c = '\r' || c = '\x0c' || c = '\x0b'

/-- `Utils::StringUtils::trim`. -/
def cppTrim (s : String) : String :=
  String.mk (((s.data.dropWhile isCppSpace).reverse.dropWhile isCppSpace).reverse)

/-- Split a character list at every occurrence of the delimiter,
keeping empty fields (the recursion mirrors reading fields up to each
delimiter). -/
def splitCharAux (d : Char) : List Char → List Char → List String
  | [], acc => [String.mk acc.reverse]
  | c :: cs, acc =>
      if c = d then String.mk acc.reverse :: splitCharAux d cs []
      else splitCharAux d cs (c :: acc)

/-- `Utils::StringUtils::split`: repeated `std::getline` with a
delimiter.  It yields no token for the empty string, and the final
`getline` consumes a trailing delimiter without producing an empty
field. -/
def cppSplit (s : String) (d : Char) : List String :=
  match s.data with
  | [] => []
  | cs =>
      let parts := splitCharAux d cs []
      if cs.getLast? = some d then parts.dropLast else parts

/-- `Utils::StringUtils::join`. -/
def cppJoin (l : List String) (sep : String) : String :=
  match l with
  | [] => ""
  | x :: rest => rest.foldl (fun acc t => acc ++ sep ++ t) x

/-- The digit-prefix value extracted by `std::stoi` (overflow, which
`parseInt` would catch into the default, is unreachable at the call
sites modelled here). -/
def stoiDigits (cs : List Char) : Option Int :=
  let ds := cs.takeWhile Char.isDigit
  if ds = [] then none
  else some ((ds.foldl (fun acc c => acc * 10 + (c.toNat - 48)) 0 : Nat) : Int)

/-- `std::stoi` on a trimmed string: optional sign, then a non-empty
digit prefix; none when no digits can be read (the `std::invalid_argument`
case). -/
def cppStoi (s : String) : Option Int :=
  match s.data with
  | '-' :: rest => (stoiDigits rest).map (fun n => -n)
  | '+' :: rest => stoiDigits rest
  | cs => stoiDigits cs

/-- `Utils::ConfigUtils::parseInt`: `stoi(trim(str))` with any exception
mapped to the default value. -/
def cppParseInt (s : String) (default_value : Int) : Int :=
  (cppStoi (cppTrim s)).getD default_value

/-- `struct CognitiveState` (types.h): the in-class initializers are the
defaults (`current_phase = PERCEPTION`, empty containers, empty id). -/
structure CognitiveState where
  agent_id : AgentId := ""
  current_phase : CognitivePhase := .PERCEPTION
  goals : List String := []
  beliefs : List (String × String) := []
  intentions : List String := []
  current_focus : List String := []
deriving DecidableEq

/-- `struct CognitiveTask` (microkernel.h): `priority` has the in-class
initializer 0; `execution_function` and timestamps are not modelled. -/
structure CognitiveTask where
  id : String := ""
  agent_id : AgentId := ""
  phase : CognitivePhase := .PERCEPTION
  description : String := ""
  parameters : List (String × String) := []
  priority : Int := 0
deriving DecidableEq

/-- `struct CognitiveContext` (microkernel.h). -/
structure CognitiveContext where
  agent_id : AgentId
  vars : List (String × String) := []
  focus_atoms : List String := []
deriving DecidableEq

/-- `class CognitiveMicrokernel`: the agent-state table, the task queue
(kept in enqueue order; the priority-pop discipline is reasoned about
through the `priority` fields), the cycle counter, and the task-id
generator counter. -/
structure CognitiveMicrokernel where
  agentspace : AgentSpace := emptySpace
  agent_states : List (AgentId × CognitiveState) := []
  task_queue : List CognitiveTask := []
  total_cycles : Nat := 0
  next_task_id : Nat := 0

/-- A microkernel over an empty `AgentSpace` with no agents. -/
def emptyKernel : CognitiveMicrokernel := {}

/-- `CognitiveMicrokernel::hasAgent`. -/
def CognitiveMicrokernel.hasAgent (k : CognitiveMicrokernel) (id : AgentId) :
    Bool :=
  (assocFind k.agent_states id).isSome

/-- `CognitiveMicrokernel::addCognitiveAgent`: when the id is already
present the stored state is returned and nothing changes; otherwise a
fresh state carrying the given goals and beliefs is stored and
returned. -/
def CognitiveMicrokernel.addCognitiveAgent (k : CognitiveMicrokernel)
    (agent_id : AgentId) (goals : List String)
    (beliefs : List (String × String)) :
    CognitiveMicrokernel × CognitiveState :=
  match assocFind k.agent_states agent_id with
  | some st => (k, st)
  | none =>
      let st : CognitiveState :=
        { agent_id := agent_id, goals := goals, beliefs := beliefs,
          current_phase := .PERCEPTION }
      ({ k with agent_states := assocAssign k.agent_states agent_id st }, st)

/-- `CognitiveMicrokernel::getActiveAgents`: the keys of the state
table. -/
def CognitiveMicrokernel.getActiveAgents (k : CognitiveMicrokernel) :
    List AgentId :=
  k.agent_states.map (·.1)

/-- `CognitiveMicrokernel::getCognitiveState`: the stored state, or a
default-constructed `CognitiveState` when the agent is unknown. -/
def CognitiveMicrokernel.getCognitiveState (k : CognitiveMicrokernel)
    (agent_id : AgentId) : CognitiveState :=
  (assocFind k.agent_states agent_id).getD {}

/-- `CognitiveMicrokernel::updateCognitiveState`: false for an unknown
agent, otherwise the state is stored (observer callbacks are outside
the model). -/
def CognitiveMicrokernel.updateCognitiveState (k : CognitiveMicrokernel)
    (agent_id : AgentId) (state : CognitiveState) :
    CognitiveMicrokernel × Bool :=
  match assocFind k.agent_states agent_id with
  | none => (k, false)
  | some _ =>
      ({ k with agent_states := assocAssign k.agent_states agent_id state }, true)

/-- `CognitiveMicrokernel::scheduleTask`: push onto the task queue. -/
def CognitiveMicrokernel.scheduleTask (k : CognitiveMicrokernel)
    (task : CognitiveTask) : CognitiveMicrokernel :=
  { k with task_queue := k.task_queue ++ [task] }

/-- `CognitiveMicrokernel::scheduleCognitivePhase`: builds a task with a
fresh id, the agent, the phase, a description and the parameters —
`priority` is left at its in-class default 0, exactly as in the
source — and schedules it. -/
def CognitiveMicrokernel.scheduleCognitivePhase (k : CognitiveMicrokernel)
    (agent_id : AgentId) (phase : CognitivePhase)
    (parameters : List (String × String)) : CognitiveMicrokernel :=
  let task : CognitiveTask :=
    { id := "task_" ++ toString k.next_task_id, agent_id := agent_id,
      phase := phase,
      description := "Cognitive phase: " ++ toString (phaseIndex phase),
      parameters := parameters }
  ({ k with next_task_id := k.next_task_id + 1 }).scheduleTask task

/-- The seven phases in the order `runCognitiveCycle` schedules them. -/
def canonicalPhases : List CognitivePhase :=
  [.PERCEPTION, .ATTENTION, .REASONING, .PLANNING, .EXECUTION, .LEARNING,
   .REFLECTION]

/-- `CognitiveMicrokernel::runCognitiveCycle`: for an unknown agent
nothing happens; otherwise one task per phase is scheduled (with empty
parameters) and `total_cycles` is incremented. -/
def CognitiveMicrokernel.runCognitiveCycle (k : CognitiveMicrokernel)
    (agent_id : AgentId) : CognitiveMicrokernel :=
  if k.hasAgent agent_id then
    let k := canonicalPhases.foldl
      (fun k ph => k.scheduleCognitivePhase agent_id ph []) k
    { k with total_cycles := k.total_cycles + 1 }
  else k

/-- `CognitiveMicrokernel::gatherEnvironmentalData`: append the store's
attentional focus to the context focus and record two context variables
(the timestamp string is opaque in the model). -/
def CognitiveMicrokernel.gatherEnvironmentalData (k : CognitiveMicrokernel)
    (ctx : CognitiveContext) : CognitiveContext :=
  let focus := k.agentspace.getAttentionalFocus
  { ctx with
    focus_atoms := ctx.focus_atoms ++ focus,
    vars :=
      assocAssign (assocAssign ctx.vars "perception_timestamp" "t")
        "environment_state" "active" }

/-- `CognitiveMicrokernel::selectAttentionalFocus`: take the 5 most
important atoms, overwrite the context focus with their ids and push
each id into the store's attentional focus. -/
def CognitiveMicrokernel.selectAttentionalFocus (k : CognitiveMicrokernel)
    (ctx : CognitiveContext) : CognitiveMicrokernel × CognitiveContext :=
  let ids := (k.agentspace.getMostImportantAtoms 5).map (·.id)
  let sp := ids.foldl (fun sp i => sp.addToAttentionalFocus i) k.agentspace
  ({ k with agentspace := sp }, { ctx with focus_atoms := ids })

/-- `CognitiveMicrokernel::performReasoning`. -/
def CognitiveMicrokernel.performReasoning (k : CognitiveMicrokernel)
    (agent_id : AgentId) (ctx : CognitiveContext) : CognitiveContext :=
  let st := k.getCognitiveState agent_id
  let vs := assocAssign ctx.vars "active_goals" (cppJoin st.goals ",")
  let vs := assocAssign vs "reasoning_result" "goal_analysis_complete"
  let vs := assocAssign vs "reasoning_confidence" "0.8"
  { ctx with vars := vs }

/-- `CognitiveMicrokernel::createActionPlans`: one plan string per goal,
joined into the `action_plans` context variable and stored as the
agent's intentions (through `updateCognitiveState`, with the phase
still the one read at entry). -/
def CognitiveMicrokernel.createActionPlans (k : CognitiveMicrokernel)
    (agent_id : AgentId) (ctx : CognitiveContext) :
    CognitiveMicrokernel × CognitiveContext :=
  let st := k.getCognitiveState agent_id
  let plans := st.goals.map (fun g => "plan_for_" ++ g)
  let ctx := { ctx with
    vars := assocAssign ctx.vars "action_plans" (cppJoin plans ",") }
  let st := { st with intentions := plans }
  ((k.updateCognitiveState agent_id st).1, ctx)

/-- `CognitiveMicrokernel::executeActions`: split the `action_plans`
context variable on commas (the loop over the plans only logs) and
record the full token count as `actions_executed`.  Reading
`variables["action_plans"]` through `map::operator[]` default-inserts
an empty string when the key is absent, modelled by writing the read
value back. -/
def CognitiveMicrokernel.executeActions (k : CognitiveMicrokernel)
    (ctx : CognitiveContext) : CognitiveMicrokernel × CognitiveContext :=
  let plans_str := (assocFind ctx.vars "action_plans").getD ""
  let plans := cppSplit plans_str ','
  let vs := assocAssign ctx.vars "action_plans" plans_str
  let vs := assocAssign vs "actions_executed" (toString plans.length)
  (k, { ctx with vars := vs })

/-- `CognitiveMicrokernel::updateKnowledge`: parse `actions_executed`
(default 0); when positive, add one procedural memory node summarizing
the count and record `learning_outcome`. -/
def CognitiveMicrokernel.updateKnowledge (k : CognitiveMicrokernel)
    (ctx : CognitiveContext) : CognitiveMicrokernel × CognitiveContext :=
  let raw := (assocFind ctx.vars "actions_executed").getD ""
  let actions_executed := cppParseInt raw 0
  let ctx := { ctx with vars := assocAssign ctx.vars "actions_executed" raw }
  if 0 < actions_executed then
    let content :=
      "Executed " ++ toString actions_executed ++ " actions successfully"
    let (sp, _) := k.agentspace.addMemoryNode content "procedural"
    ({ k with agentspace := sp },
     { ctx with
       vars := assocAssign ctx.vars "learning_outcome" "knowledge_updated" })
  else (k, ctx)

/-- `CognitiveMicrokernel::evaluatePerformance`: a coarse score, 0.8
when the parsed executed count is positive and 0.3 otherwise (the
double-to-string rendering is opaque in the model). -/
def CognitiveMicrokernel.evaluatePerformance (k : CognitiveMicrokernel)
    (ctx : CognitiveContext) : CognitiveContext :=
  let raw := (assocFind ctx.vars "actions_executed").getD ""
  let actions_executed := cppParseInt raw 0
  let score : ℚ := if 0 < actions_executed then 8/10 else 3/10
  let vs := assocAssign ctx.vars "actions_executed" raw
  let vs := assocAssign vs "performance_score" (toString score)
  let vs := assocAssign vs "reflection_complete" "true"
  { ctx with vars := vs }

/-- `CognitiveMicrokernel::processPerceptionPhase`. -/
def CognitiveMicrokernel.processPerceptionPhase (k : CognitiveMicrokernel)
    (agent_id : AgentId) (ctx : CognitiveContext) :
    CognitiveMicrokernel × CognitiveContext :=
  let ctx := k.gatherEnvironmentalData ctx
  let st := k.getCognitiveState agent_id
  let st := { st with current_phase := .ATTENTION }
  ((k.updateCognitiveState agent_id st).1, ctx)

/-- `CognitiveMicrokernel::processAttentionPhase`. -/
def CognitiveMicrokernel.processAttentionPhase (k : CognitiveMicrokernel)
    (agent_id : AgentId) (ctx : CognitiveContext) :
    CognitiveMicrokernel × CognitiveContext :=
  let (k, ctx) := k.selectAttentionalFocus ctx
  let k := { k with agentspace := k.agentspace.updateAttentionValues }
  let st := k.getCognitiveState agent_id
  let st := { st with current_phase := .REASONING,
                      current_focus := ctx.focus_atoms }
  ((k.updateCognitiveState agent_id st).1, ctx)

/-- `CognitiveMicrokernel::processReasoningPhase`. -/
def CognitiveMicrokernel.processReasoningPhase (k : CognitiveMicrokernel)
    (agent_id : AgentId) (ctx : CognitiveContext) :
    CognitiveMicrokernel × CognitiveContext :=
  let ctx := k.performReasoning agent_id ctx
  let st := k.getCognitiveState agent_id
  let st := { st with current_phase := .PLANNING }
  ((k.updateCognitiveState agent_id st).1, ctx)

/-- `CognitiveMicrokernel::processPlanningPhase`. -/
def CognitiveMicrokernel.processPlanningPhase (k : CognitiveMicrokernel)
    (agent_id : AgentId) (ctx : CognitiveContext) :
    CognitiveMicrokernel × CognitiveContext :=
  let (k, ctx) := k.createActionPlans agent_id ctx
  let st := k.getCognitiveState agent_id
  let st := { st with current_phase := .EXECUTION }
  ((k.updateCognitiveState agent_id st).1, ctx)

/-- `CognitiveMicrokernel::processExecutionPhase`. -/
def CognitiveMicrokernel.processExecutionPhase (k : CognitiveMicrokernel)
    (agent_id : AgentId) (ctx : CognitiveContext) :
    CognitiveMicrokernel × CognitiveContext :=
  let (k, ctx) := k.executeActions ctx
  let st := k.getCognitiveState agent_id
  let st := { st with current_phase := .LEARNING }
  ((k.updateCognitiveState agent_id st).1, ctx)

/-- `CognitiveMicrokernel::processLearningPhase`. -/
def CognitiveMicrokernel.processLearningPhase (k : CognitiveMicrokernel)
    (agent_id : AgentId) (ctx : CognitiveContext) :
    CognitiveMicrokernel × CognitiveContext :=
  let (k, ctx) := k.updateKnowledge ctx
  let st := k.getCognitiveState agent_id
  let st := { st with current_phase := .REFLECTION }
  ((k.updateCognitiveState agent_id st).1, ctx)

/-- `CognitiveMicrokernel::processReflectionPhase`: resets the phase to
the start of the cycle. -/
def CognitiveMicrokernel.processReflectionPhase (k : CognitiveMicrokernel)
    (agent_id : AgentId) (ctx : CognitiveContext) :
    CognitiveMicrokernel × CognitiveContext :=
  let ctx := k.evaluatePerformance ctx
  let st := k.getCognitiveState agent_id
  let st := { st with current_phase := .PERCEPTION }
  ((k.updateCognitiveState agent_id st).1, ctx)

/-- `CognitiveMicrokernel::executePhaseFunction`: dispatch on the
phase. -/
def CognitiveMicrokernel.executePhaseFunction (k : CognitiveMicrokernel)
    (agent_id : AgentId) (phase : CognitivePhase) (ctx : CognitiveContext) :
    CognitiveMicrokernel × CognitiveContext :=
  match phase with
  | .PERCEPTION => k.processPerceptionPhase agent_id ctx
  | .ATTENTION => k.processAttentionPhase agent_id ctx
  | .REASONING => k.processReasoningPhase agent_id ctx
  | .PLANNING => k.processPlanningPhase agent_id ctx
  | .EXECUTION => k.processExecutionPhase agent_id ctx
  | .LEARNING => k.processLearningPhase agent_id ctx
  | .REFLECTION => k.processReflectionPhase agent_id ctx

/-- `CognitiveMicrokernel::processTask`: a fresh context is constructed
from the task's agent id and parameters, the phase handler runs on it,
and the context then goes out of scope (none of the modelled handlers
throws, so the catch branch is unreachable). -/
def CognitiveMicrokernel.processTask (k : CognitiveMicrokernel)
    (task : CognitiveTask) : CognitiveMicrokernel :=
  let ctx : CognitiveContext :=
    { agent_id := task.agent_id, vars := task.parameters }
  (k.executePhaseFunction task.agent_id task.phase ctx).1

/-- Processing a list of tasks in the given (enqueue/FIFO) order. -/
def CognitiveMicrokernel.processTasks (k : CognitiveMicrokernel)
    (tasks : List CognitiveTask) : CognitiveMicrokernel :=
  tasks.foldl CognitiveMicrokernel.processTask k

/-- The phase each handler writes as its final state update (Reflection
wraps to Perception). -/
def nextPhase : CognitivePhase → CognitivePhase
  | .PERCEPTION => .ATTENTION
  | .ATTENTION => .REASONING
  | .REASONING => .PLANNING
  | .PLANNING => .EXECUTION
  | .EXECUTION => .LEARNING
  | .LEARNING => .REFLECTION
  | .REFLECTION => .PERCEPTION

/-! ### Association-list and index-set lemmas -/

theorem assocFind_assign_self {β : Type} (m : List (String × β)) (k : String)
    (v : β) : assocFind (assocAssign m k v) k = some v := by
  induction m with
  | nil => simp [assocAssign, assocFind]
  | cons p rest ih =>
      obtain ⟨k', v'⟩ := p
      by_cases h : k' = k
      · simp [assocAssign, assocFind, h]
      · simp [assocAssign, assocFind, h, ih]

theorem assocFind_assign_ne {β : Type} (m : List (String × β)) (k k' : String)
    (v : β) (h : k' ≠ k) :
    assocFind (assocAssign m k v) k' = assocFind m k' := by
  induction m with
  | nil => simp [assocAssign, assocFind, Ne.symm h]
  | cons p rest ih =>
      obtain ⟨k'', v'⟩ := p
      by_cases hk : k'' = k
      · subst hk
        simp [assocAssign, assocFind, Ne.symm h]
      · simp [assocAssign, assocFind, hk, ih]

theorem assocFind_erase_self {β : Type} (m : List (String × β)) (k : String) :
    assocFind (assocErase m k) k = none := by
  induction m with
  | nil => simp [assocErase, assocFind]
  | cons p rest ih =>
      obtain ⟨k', v'⟩ := p
      by_cases h : k' = k
      · simpa [assocErase, h] using ih
      · simpa [assocErase, assocFind, h] using ih

theorem assocFind_erase_ne {β : Type} (m : List (String × β)) (k k' : String)
    (h : k' ≠ k) : assocFind (assocErase m k) k' = assocFind m k' := by
  induction m with
  | nil => simp [assocErase, assocFind]
  | cons p rest ih =>
      obtain ⟨k'', v'⟩ := p
      by_cases hk : k'' = k
      · have h1 : assocErase ((k'', v') :: rest) k = assocErase rest k := by
          simp [assocErase, hk]
        have h2 : ¬ (k'' = k') := by
          rw [hk]
          exact fun hh => h hh.symm
        rw [h1, ih]
        simp only [assocFind, if_neg h2]
      · have h1 : assocErase ((k'', v') :: rest) k =
            (k'', v') :: assocErase rest k := by
          simp [assocErase, hk]
        rw [h1]
        simp only [assocFind]
        rw [ih]

theorem mem_keys_of_assocFind {β : Type} (m : List (String × β)) (k : String)
    (v : β) (h : assocFind m k = some v) : k ∈ m.map (·.1) := by
  induction m with
  | nil => simp [assocFind] at h
  | cons p rest ih =>
      obtain ⟨k', v'⟩ := p
      by_cases hk : k' = k
      · simp [hk]
      · simp only [assocFind, if_neg hk] at h
        simp [ih h]

theorem mem_setInsert (l : List AtomId) (id x : AtomId) :
    x ∈ setInsert l id ↔ x = id ∨ x ∈ l := by
  by_cases h : id ∈ l
  · simp only [setInsert, if_pos h]
    constructor
    · exact fun hx => Or.inr hx
    · rintro (rfl | hx)
      · exact h
      · exact hx
  · simp [setInsert, if_neg h]

theorem mem_setErase (l : List AtomId) (id x : AtomId) :
    x ∈ setErase l id ↔ x ∈ l ∧ x ≠ id := by
  simp [setErase]

/-! ### Concrete fixtures used by witnesses and counterexamples -/

/-- An agent node as stored for agent `"a"`. -/
def atomA : Atom :=
  { id := "a", type := .AGENT_NODE, name := "alice", payload := .node "" }

/-- An agent node as stored for agent `"b"`. -/
def atomB : Atom :=
  { id := "b", type := .AGENT_NODE, name := "bob", payload := .node "" }

/-- A trust link whose outgoing list references atoms `"a"` and `"b"`
by id. -/
def linkAB : Atom :=
  { id := "l", type := .TRUST_LINK, name := "trust_ab",
    truth_value := mkTruthValue (8/10) (1/2), payload := .link ["a", "b"] }

/-- A store holding the two agent nodes. -/
def spaceAB : AgentSpace :=
  ((emptySpace.addAtom (some atomA)).1.addAtom (some atomB)).1

/-- A store holding the two agent nodes and the trust link between
them. -/
def spaceABL : AgentSpace :=
  (spaceAB.addAtom (some linkAB)).1

/-- A kernel with the single registered agent `"a1"` with one goal. -/
def kernelA1 : CognitiveMicrokernel :=
  (emptyKernel.addCognitiveAgent "a1" ["explore"] []).1

/-- The stored state of `"a1"` in `kernelA1`. -/
def stateA1 : CognitiveState :=
  { agent_id := "a1", goals := ["explore"] }

/-- Twenty distinct focus entries. -/
def focus20 : List AtomId :=
  (List.range 20).map (fun i => "f" ++ toString i)

/-- A store whose attentional focus is full (20 entries). -/
def spaceFocus20 : AgentSpace :=
  { emptySpace with attentional_focus := focus20 }

/-! ### C7 — attentional-focus bound, dedup and FIFO eviction -/

/-- C7: `addToAttentionalFocus` first erases any existing occurrence of
the id, then appends it, and evicts the front entry when the length
would exceed 20; consequently the focus list stays duplicate-free and
never exceeds 20 entries, and inserting a 21st distinct id evicts the
oldest entry (purely by position, not by importance). -/
theorem addToAttentionalFocus_bounded_dedup_fifo (s : AgentSpace)
    (id : AtomId) (hlen : s.attentional_focus.length ≤ 20)
    (hnd : s.attentional_focus.Nodup) :
    (s.addToAttentionalFocus id).attentional_focus.length ≤ 20 ∧
    (s.addToAttentionalFocus id).attentional_focus.Nodup ∧
    ((s.addToAttentionalFocus id).attentional_focus =
      if 20 < (s.attentional_focus.filter (· ≠ id) ++ [id]).length
      then (s.attentional_focus.filter (· ≠ id) ++ [id]).tail
      else s.attentional_focus.filter (· ≠ id) ++ [id]) ∧
    (id ∉ s.attentional_focus → s.attentional_focus.length = 20 →
      (s.addToAttentionalFocus id).attentional_focus =
        s.attentional_focus.tail ++ [id]) := by
  have hres : (s.addToAttentionalFocus id).attentional_focus =
      if 20 < (s.attentional_focus.filter (· ≠ id) ++ [id]).length
      then (s.attentional_focus.filter (· ≠ id) ++ [id]).tail
      else s.attentional_focus.filter (· ≠ id) ++ [id] := rfl
  have hfillen : (s.attentional_focus.filter (· ≠ id)).length ≤
      s.attentional_focus.length := List.length_filter_le _ _
  have hglen : (s.attentional_focus.filter (· ≠ id) ++ [id]).length ≤ 21 := by
    rw [List.length_append, List.length_singleton]
    omega
  have hnotmem : id ∉ s.attentional_focus.filter (· ≠ id) := by
    intro hmem
    have h1 := List.of_mem_filter hmem
    simp at h1
  have hgnd : (s.attentional_focus.filter (· ≠ id) ++ [id]).Nodup := by
    refine List.Nodup.append (hnd.filter _) (List.nodup_singleton id) ?_
    intro x hx hx'
    rw [List.mem_singleton] at hx'
    subst hx'
    exact hnotmem hx
  refine ⟨?_, ?_, hres, ?_⟩
  · rw [hres]
    by_cases hc : 20 < (s.attentional_focus.filter (· ≠ id) ++ [id]).length
    · rw [if_pos hc, List.length_tail]
      omega
    · rw [if_neg hc]
      omega
  · rw [hres]
    by_cases hc : 20 < (s.attentional_focus.filter (· ≠ id) ++ [id]).length
    · rw [if_pos hc]
      exact (List.tail_sublist _).nodup hgnd
    · rw [if_neg hc]
      exact hgnd
  · intro hout hlen20
    have hfilter : s.attentional_focus.filter (· ≠ id) = s.attentional_focus := by
      refine List.filter_eq_self.mpr ?_
      intro x hx
      simp only [ne_eq, decide_eq_true_eq]
      intro hxid
      exact hout (hxid ▸ hx)
    rw [hres, hfilter]
    have hc : 20 < (s.attentional_focus ++ [id]).length := by
      rw [List.length_append, List.length_singleton]
      omega
    rw [if_pos hc]
    cases hfoc : s.attentional_focus with
    | nil => rw [hfoc] at hlen20; simp at hlen20
    | cons x xs => simp

/-- C7 witness: inserting the 21st distinct id `"x"` into a full
20-entry focus evicts the oldest entry. -/
theorem addToAttentionalFocus_bounded_dedup_fifo_w :
    (spaceFocus20.addToAttentionalFocus "x").attentional_focus =
      focus20.tail ++ ["x"] :=
  (addToAttentionalFocus_bounded_dedup_fifo spaceFocus20 "x" (by decide)
    (by decide)).2.2.2 (by decide) (by decide)

/-! ### C10 — unknown agent yields a default-constructed state -/

/-- C10: for an unregistered agent id, `getCognitiveState` returns a
default-constructed `CognitiveState` — empty agent id, phase
`PERCEPTION`, empty goals/beliefs/intentions/focus — and, its return
type being a plain state, carries no error or absence indicator. -/
theorem getCognitiveState_unknown_default (k : CognitiveMicrokernel)
    (agent_id : AgentId) (h : assocFind k.agent_states agent_id = none) :
    k.getCognitiveState agent_id = ({} : CognitiveState) ∧
    (k.getCognitiveState agent_id).agent_id = "" ∧
    (k.getCognitiveState agent_id).current_phase = .PERCEPTION ∧
    (k.getCognitiveState agent_id).goals = [] ∧
    (k.getCognitiveState agent_id).beliefs = [] ∧
    (k.getCognitiveState agent_id).intentions = [] ∧
    (k.getCognitiveState agent_id).current_focus = [] := by
  have hd : k.getCognitiveState agent_id = ({} : CognitiveState) := by
    unfold CognitiveMicrokernel.getCognitiveState
    rw [h, Option.getD_none]
  exact ⟨hd, by rw [hd], by rw [hd], by rw [hd], by rw [hd], by rw [hd],
    by rw [hd]⟩

/-- C10 witness: `kernelA1` does not know agent `"ghost"`, and the
returned state is the default one. -/
theorem getCognitiveState_unknown_default_w :
    kernelA1.getCognitiveState "ghost" = ({} : CognitiveState) :=
  (getCognitiveState_unknown_default kernelA1 "ghost" (by decide)).1

/-! ### C9 — idempotent agent registration -/

/-- C9: a second `addCognitiveAgent` call for an id already in the state
table returns the stored state and changes nothing, and
`getActiveAgents` lists the id exactly once before and after. -/
theorem addCognitiveAgent_idempotent (k : CognitiveMicrokernel)
    (id : AgentId) (goals : List String) (beliefs : List (String × String))
    (st : CognitiveState) (h : assocFind k.agent_states id = some st)
    (hnd : (k.agent_states.map (·.1)).Nodup) :
    k.addCognitiveAgent id goals beliefs = (k, st) ∧
    (k.addCognitiveAgent id goals beliefs).1.getActiveAgents.count id = 1 ∧
    k.getActiveAgents.count id = 1 := by
  have hcall : k.addCognitiveAgent id goals beliefs = (k, st) := by
    simp [CognitiveMicrokernel.addCognitiveAgent, h]
  have hmem : id ∈ k.getActiveAgents :=
    mem_keys_of_assocFind k.agent_states id st h
  have hcount : k.getActiveAgents.count id = 1 :=
    List.count_eq_one_of_mem hnd hmem
  refine ⟨hcall, ?_, hcount⟩
  rw [hcall]
  exact hcount

/-- C9 witness: registering `"a1"` twice in the concrete kernel returns
the original state and `"a1"` stays listed once. -/
theorem addCognitiveAgent_idempotent_w :
    kernelA1.addCognitiveAgent "a1" ["other_goal"] [("b", "v")] =
      (kernelA1, stateA1) ∧
    kernelA1.getActiveAgents.count "a1" = 1 :=
  ⟨(addCognitiveAgent_idempotent kernelA1 "a1" ["other_goal"] [("b", "v")]
      stateA1 (by decide) (by decide)).1,
   (addCognitiveAgent_idempotent kernelA1 "a1" ["other_goal"] [("b", "v")]
      stateA1 (by decide) (by decide)).2.2⟩

/-! ### C2 — outgoing entries are id references; removal does not
cascade -/

/-- C2: removing an atom referenced by a link's outgoing list succeeds,
leaves the link atom untouched in the store, and afterwards resolving
the removed id through the store yields absence (`none`), not the stale
atom. -/
theorem removeAtom_no_cascade (s : AgentSpace) (lk : Atom) (aid : AtomId)
    (outg : List AtomId) (hlk : s.getAtom lk.id = some lk)
    (hpay : lk.payload = .link outg) (hmem : aid ∈ outg)
    (ha : (s.getAtom aid).isSome) (hne : lk.id ≠ aid) :
    (s.removeAtom aid).2 = true ∧
    (s.removeAtom aid).1.getAtom lk.id = some lk ∧
    (s.removeAtom aid).1.getAtom aid = none := by
  obtain ⟨a, hfind⟩ := Option.isSome_iff_exists.mp ha
  have hfind' : assocFind s.atoms aid = some a := hfind
  have hatoms : (s.removeAtom aid).1.atoms = assocErase s.atoms aid := by
    simp [AgentSpace.removeAtom, hfind', AgentSpace.removeAtomFromIndices]
  refine ⟨?_, ?_, ?_⟩
  · simp [AgentSpace.removeAtom, hfind']
  · rw [AgentSpace.getAtom, hatoms, assocFind_erase_ne s.atoms aid lk.id hne]
    exact hlk
  · rw [AgentSpace.getAtom, hatoms, assocFind_erase_self]

/-- C2 witness: in the concrete store, removing node `"a"` (referenced
by the trust link) succeeds, keeps the link, and `"a"` then resolves to
`none`. -/
theorem removeAtom_no_cascade_w :
    (spaceABL.removeAtom "a").2 = true ∧
    (spaceABL.removeAtom "a").1.getAtom "l" = some linkAB ∧
    (spaceABL.removeAtom "a").1.getAtom "a" = none :=
  removeAtom_no_cascade spaceABL linkAB "a" ["a", "b"] (by rfl) (by rfl)
    (by decide) (by rfl) (by decide)

/-! ### C5 — out-of-range truth/trust values are clamped, not rejected -/

/-- The trust link that `addTrustRelationship "a" "b" 2` builds in
`spaceAB` (its id comes from the generator counter, which is 0). -/
def linkOOB : Atom :=
  { id := "uuid-0", type := .TRUST_LINK, name := "atom_uuid-0",
    truth_value := mkTruthValue 2 (1/2),
    metadata := [("trust_level", toString (2 : ℚ))],
    payload := .link ["a", "b"] }

/-- C5 counterexample: a trust level of 2 (outside `[0,1]`) does not
make `addTrustRelationship` fail — the call succeeds and stores a link
whose truth strength is the clamped value 1, a value derived from the
out-of-range input. -/
theorem addTrustRelationship_oob_succeeds :
    (spaceAB.addTrustRelationship "a" "b" 2).2 = some linkOOB ∧
    (spaceAB.addTrustRelationship "a" "b" 2).1.getAtom "uuid-0" =
      some linkOOB ∧
    linkOOB.truth_value.strength = 1 := by
  refine ⟨rfl, rfl, ?_⟩
  norm_num [linkOOB, mkTruthValue, cppClamp]

/-- C5 (amended): the `TruthValue` constructor clamps both components
into `[0,1]` (an out-of-range strength is mapped to the nearer bound,
never stored raw); `addTrustRelationship` on two resolvable endpoints
succeeds for any trust level and stores the clamped strength; and
adding a null atom returns a null indicator with the store unchanged —
no operation reports an InvalidArgument error. -/
theorem truthValue_clamped_trust_stored (sv cv lvl : ℚ) (sp : AgentSpace)
    (a1 a2 : AgentId) (h1 : (sp.getAtom a1).isSome)
    (h2 : (sp.getAtom a2).isSome) :
    (0 ≤ (mkTruthValue sv cv).strength ∧ (mkTruthValue sv cv).strength ≤ 1 ∧
     0 ≤ (mkTruthValue sv cv).confidence ∧
     (mkTruthValue sv cv).confidence ≤ 1) ∧
    (1 < sv → (mkTruthValue sv cv).strength = 1) ∧
    (sv < 0 → (mkTruthValue sv cv).strength = 0) ∧
    ((sp.addTrustRelationship a1 a2 lvl).2.map
        (fun l => l.truth_value.strength) = some (cppClamp lvl 0 1)) ∧
    sp.addAtom none = (sp, none) := by
  obtain ⟨x1, hx1⟩ := Option.isSome_iff_exists.mp h1
  obtain ⟨x2, hx2⟩ := Option.isSome_iff_exists.mp h2
  have hx1' : sp.getAtom a1 = some x1 := hx1
  have hx2' : sp.getAtom a2 = some x2 := hx2
  refine ⟨⟨?_, ?_, ?_, ?_⟩, ?_, ?_, ?_, rfl⟩
  · simp only [mkTruthValue, cppClamp]
    split_ifs <;> linarith
  · simp only [mkTruthValue, cppClamp]
    split_ifs <;> linarith
  · simp only [mkTruthValue, cppClamp]
    split_ifs <;> linarith
  · simp only [mkTruthValue, cppClamp]
    split_ifs <;> linarith
  · intro hgt
    simp only [mkTruthValue, cppClamp]
    rw [if_neg (by linarith), if_pos hgt]
  · intro hlt
    simp only [mkTruthValue, cppClamp]
    rw [if_pos hlt]
  · simp [AgentSpace.addTrustRelationship, AgentSpace.addAtom, hx1', hx2',
      mkTruthValue]

/-- C5 witness: applied to the concrete two-agent store with an
in-range level 1/2, the stored strength is the (identity) clamp of the
input. -/
theorem truthValue_clamped_trust_stored_w :
    (spaceAB.addTrustRelationship "a" "b" (1/2)).2.map
        (fun l => l.truth_value.strength) = some (cppClamp (1/2) 0 1) :=
  (truthValue_clamped_trust_stored (1/2) (1/2) (1/2) spaceAB "a" "b"
    (by rfl) (by rfl)).2.2.2.1

/-! ### C8 — attention decay sweep and monotone decay of `|sti|` -/

/-- Iterating the decay sweep on a single attention record. -/
def decayIter (av : AttentionValue) : Nat → AttentionValue
  | 0 => av
  | n + 1 => decayAttention (decayIter av n)

theorem decayIter_sti (av : AttentionValue) (n : Nat) :
    (decayIter av n).sti = av.sti * (99/100) ^ n := by
  induction n with
  | zero => simp [decayIter]
  | succ n ih =>
      simp only [decayIter, decayAttention, ih]
      ring

/-- C8: one `updateAttentionValues` call replaces every atom's
attention record by its sequential decay (`sti *= 0.99`,
`lti = lti*0.999 + sti*0.001`, `vlti = vlti*0.9999 + lti*0.0001`) and
changes nothing else about any atom or about the store; under repeated
calls with no other attention writes, `|sti|` is monotonically
non-increasing and eventually falls below any positive bound. -/
theorem updateAttentionValues_decay (s : AgentSpace) (av : AttentionValue)
    (n : Nat) (ε : ℚ) (hε : 0 < ε) :
    s.updateAttentionValues.atoms =
      s.atoms.map (fun p =>
        (p.1,
         { p.2 with attention_value := decayAttention p.2.attention_value })) ∧
    s.updateAttentionValues.atoms_by_type = s.atoms_by_type ∧
    s.updateAttentionValues.atoms_by_name = s.atoms_by_name ∧
    s.updateAttentionValues.attentional_focus = s.attentional_focus ∧
    (decayAttention av).sti = av.sti * (99/100) ∧
    |(decayIter av (n + 1)).sti| ≤ |(decayIter av n).sti| ∧
    ∃ N, |(decayIter av N).sti| < ε := by
  refine ⟨rfl, rfl, rfl, rfl, by simp [decayAttention], ?_, ?_⟩
  · rw [decayIter_sti, decayIter_sti]
    have hsplit : av.sti * (99/100) ^ (n + 1) =
        av.sti * (99/100) ^ n * (99/100) := by ring
    rw [hsplit, abs_mul]
    have h99 : |(99 : ℚ)/100| = 99/100 := by
      rw [abs_of_nonneg]
      norm_num
    rw [h99]
    exact mul_le_of_le_one_right (abs_nonneg _) (by norm_num)
  · rcases eq_or_ne av.sti 0 with h0 | h0
    · refine ⟨0, ?_⟩
      simpa [decayIter, h0] using hε
    · have habs : 0 < |av.sti| := abs_pos.mpr h0
      obtain ⟨N, hN⟩ := exists_pow_lt_of_lt_one (div_pos hε habs)
        (by norm_num : (99 : ℚ)/100 < 1)
      refine ⟨N, ?_⟩
      rw [decayIter_sti, abs_mul, abs_pow]
      have h99 : |(99 : ℚ)/100| = 99/100 := by
        rw [abs_of_nonneg]
        norm_num
      rw [h99]
      calc |av.sti| * (99/100) ^ N
          < |av.sti| * (ε / |av.sti|) := mul_lt_mul_of_pos_left hN habs
        _ = ε := by field_simp

/-- C8 witness: starting from `sti = 1`, some number of decay sweeps
brings `|sti|` below 1. -/
theorem updateAttentionValues_decay_w :
    ∃ N, |(decayIter { sti := 1, lti := 0, vlti := 0 } N).sti| < 1 :=
  (updateAttentionValues_decay emptySpace { sti := 1, lti := 0, vlti := 0 }
    0 1 (by norm_num)).2.2.2.2.2.2

/-! ### C6 — index consistency under add/remove, broken by `setName` -/

/-- Store operations covered by the index-consistency statement:
explicit add of a (fresh-id) atom and remove by id.  The name mutation
`setName` is handled separately: see the counterexample. -/
inductive SpaceOp where
  | add (a : Atom)
  | remove (id : AtomId)

/-- Apply one operation to the store. -/
def applyOp (s : AgentSpace) : SpaceOp → AgentSpace
  | .add a => (s.addAtom (some a)).1
  | .remove id => (s.removeAtom id).1

/-- Apply a sequence of operations to the store. -/
def applyOps (s : AgentSpace) (ops : List SpaceOp) : AgentSpace :=
  ops.foldl applyOp s

/-- Atom ids come from a UUID generator and are never reused, so in any
run of the program every added atom's id is fresh at the moment it is
added.  This predicate captures that side condition for an operation
sequence. -/
def FreshAdds (s : AgentSpace) : List SpaceOp → Prop
  | [] => True
  | op :: rest =>
      (match op with
       | .add a => assocFind s.atoms a.id = none
       | .remove _ => True) ∧ FreshAdds (applyOp s op) rest

/-- Index consistency: every live atom is keyed by its own id and its
id is a member of exactly the type-index set of its type and the
name-index set of its name; an id with no live atom is in no index
set. -/
def IndexInv (s : AgentSpace) : Prop :=
  (∀ id a, assocFind s.atoms id = some a →
      a.id = id ∧
      (∀ t, id ∈ s.atoms_by_type t ↔ t = a.type) ∧
      (∀ n, id ∈ s.atoms_by_name n ↔ n = a.name)) ∧
  (∀ id, assocFind s.atoms id = none →
      (∀ t, id ∉ s.atoms_by_type t) ∧ (∀ n, id ∉ s.atoms_by_name n))

theorem indexInv_empty : IndexInv emptySpace := by
  constructor
  · intro id a h
    simp [emptySpace, assocFind] at h
  · intro id _
    constructor
    · intro t
      simp [emptySpace]
    · intro n
      simp [emptySpace]

theorem indexInv_addAtom (s : AgentSpace) (a : Atom) (hinv : IndexInv s)
    (hfresh : assocFind s.atoms a.id = none) :
    IndexInv (s.addAtom (some a)).1 := by
  obtain ⟨hlive, hdead⟩ := hinv
  have hatoms : (s.addAtom (some a)).1.atoms = assocAssign s.atoms a.id a :=
    rfl
  have htype : ∀ t, (s.addAtom (some a)).1.atoms_by_type t =
      if t = a.type then setInsert (s.atoms_by_type t) a.id
      else s.atoms_by_type t := fun _ => rfl
  have hname : ∀ n, (s.addAtom (some a)).1.atoms_by_name n =
      if n = a.name then setInsert (s.atoms_by_name n) a.id
      else s.atoms_by_name n := fun _ => rfl
  constructor
  · intro id b hb
    rw [hatoms] at hb
    by_cases hid : id = a.id
    · subst hid
      rw [assocFind_assign_self] at hb
      have hba : b = a := by
        injection hb with hba
        exact hba.symm
      subst hba
      refine ⟨rfl, ?_, ?_⟩
      · intro t
        rw [htype t]
        by_cases ht : t = b.type
        · rw [if_pos ht, mem_setInsert]
          simp [ht]
        · rw [if_neg ht]
          constructor
          · intro hmem
            exact absurd hmem ((hdead b.id hfresh).1 t)
          · intro heq
            exact absurd heq ht
      · intro n
        rw [hname n]
        by_cases hn : n = b.name
        · rw [if_pos hn, mem_setInsert]
          simp [hn]
        · rw [if_neg hn]
          constructor
          · intro hmem
            exact absurd hmem ((hdead b.id hfresh).2 n)
          · intro heq
            exact absurd heq hn
    · rw [assocFind_assign_ne s.atoms a.id id a hid] at hb
      obtain ⟨hbid, hbt, hbn⟩ := hlive id b hb
      refine ⟨hbid, ?_, ?_⟩
      · intro t
        rw [htype t]
        by_cases ht : t = a.type
        · rw [if_pos ht, mem_setInsert]
          rw [Iff.comm]
          constructor
          · intro heq
            exact Or.inr ((hbt t).mpr heq)
          · rintro (heq | hmem)
            · exact absurd heq hid
            · exact (hbt t).mp hmem
        · rw [if_neg ht]
          exact hbt t
      · intro n
        rw [hname n]
        by_cases hn : n = a.name
        · rw [if_pos hn, mem_setInsert]
          rw [Iff.comm]
          constructor
          · intro heq
            exact Or.inr ((hbn n).mpr heq)
          · rintro (heq | hmem)
            · exact absurd heq hid
            · exact (hbn n).mp hmem
        · rw [if_neg hn]
          exact hbn n
  · intro id hnone
    rw [hatoms] at hnone
    have hid : id ≠ a.id := by
      intro hcontra
      subst hcontra
      rw [assocFind_assign_self] at hnone
      exact Option.noConfusion hnone
    rw [assocFind_assign_ne s.atoms a.id id a hid] at hnone
    obtain ⟨hdt, hdn⟩ := hdead id hnone
    constructor
    · intro t
      rw [htype t]
      by_cases ht : t = a.type
      · rw [if_pos ht, mem_setInsert]
        rintro (heq | hmem)
        · exact hid heq
        · exact hdt t hmem
      · rw [if_neg ht]
        exact hdt t
    · intro n
      rw [hname n]
      by_cases hn : n = a.name
      · rw [if_pos hn, mem_setInsert]
        rintro (heq | hmem)
        · exact hid heq
        · exact hdn n hmem
      · rw [if_neg hn]
        exact hdn n

theorem indexInv_removeAtom (s : AgentSpace) (rid : AtomId)
    (hinv : IndexInv s) : IndexInv (s.removeAtom rid).1 := by
  obtain ⟨hlive, hdead⟩ := hinv
  cases hfind : assocFind s.atoms rid with
  | none =>
      have hsame : (s.removeAtom rid).1 = s := by
        simp [AgentSpace.removeAtom, hfind]
      rw [hsame]
      exact ⟨hlive, hdead⟩
  | some a =>
      obtain ⟨haid, hat, han⟩ := hlive rid a hfind
      have hatoms : (s.removeAtom rid).1.atoms = assocErase s.atoms rid := by
        simp [AgentSpace.removeAtom, hfind, AgentSpace.removeAtomFromIndices]
      have htype : ∀ t, (s.removeAtom rid).1.atoms_by_type t =
          if t = a.type then setErase (s.atoms_by_type t) a.id
          else s.atoms_by_type t := by
        intro t
        simp [AgentSpace.removeAtom, hfind, AgentSpace.removeAtomFromIndices]
      have hname : ∀ n, (s.removeAtom rid).1.atoms_by_name n =
          if n = a.name then setErase (s.atoms_by_name n) a.id
          else s.atoms_by_name n := by
        intro n
        simp [AgentSpace.removeAtom, hfind, AgentSpace.removeAtomFromIndices]
      constructor
      · intro id b hb
        rw [hatoms] at hb
        have hid : id ≠ rid := by
          intro hcontra
          subst hcontra
          rw [assocFind_erase_self] at hb
          exact Option.noConfusion hb
        rw [assocFind_erase_ne s.atoms rid id hid] at hb
        obtain ⟨hbid, hbt, hbn⟩ := hlive id b hb
        refine ⟨hbid, ?_, ?_⟩
        · intro t
          rw [htype t]
          by_cases ht : t = a.type
          · rw [if_pos ht, mem_setErase]
            constructor
            · rintro ⟨hmem, _⟩
              exact (hbt t).mp hmem
            · intro heq
              refine ⟨(hbt t).mpr heq, ?_⟩
              rw [haid]
              exact hid
          · rw [if_neg ht]
            exact hbt t
        · intro n
          rw [hname n]
          by_cases hn : n = a.name
          · rw [if_pos hn, mem_setErase]
            constructor
            · rintro ⟨hmem, _⟩
              exact (hbn n).mp hmem
            · intro heq
              refine ⟨(hbn n).mpr heq, ?_⟩
              rw [haid]
              exact hid
          · rw [if_neg hn]
            exact hbn n
      · intro id hnone
        rw [hatoms] at hnone
        by_cases hid : id = rid
        · subst hid
          constructor
          · intro t
            rw [htype t]
            by_cases ht : t = a.type
            · rw [if_pos ht, mem_setErase]
              rintro ⟨_, hne⟩
              exact hne haid.symm
            · rw [if_neg ht]
              intro hmem
              exact ht ((hat t).mp hmem)
          · intro n
            rw [hname n]
            by_cases hn : n = a.name
            · rw [if_pos hn, mem_setErase]
              rintro ⟨_, hne⟩
              exact hne haid.symm
            · rw [if_neg hn]
              intro hmem
              exact hn ((han n).mp hmem)
        · rw [assocFind_erase_ne s.atoms rid id hid] at hnone
          obtain ⟨hdt, hdn⟩ := hdead id hnone
          constructor
          · intro t
            rw [htype t]
            by_cases ht : t = a.type
            · rw [if_pos ht, mem_setErase]
              rintro ⟨hmem, _⟩
              exact hdt t hmem
            · rw [if_neg ht]
              exact hdt t
          · intro n
            rw [hname n]
            by_cases hn : n = a.name
            · rw [if_pos hn, mem_setErase]
              rintro ⟨hmem, _⟩
              exact hdn n hmem
            · rw [if_neg hn]
              exact hdn n

/-- C6 (amended): over any sequence of `addAtom`/`removeAtom`
operations (each added atom carrying a fresh id, as the UUID generator
guarantees), every live atom's id is in exactly the type-index set of
its type and the name-index set of its name, and removed ids are in no
index set.  The claim's inclusion of `setName` fails: `Atom::setName`
rewrites the name in place without reindexing (see the
counterexample), so consistency is stated for stores whose live names
were not mutated after insertion. -/
theorem index_consistency_add_remove (ops : List SpaceOp) (s : AgentSpace)
    (hinv : IndexInv s) (hwf : FreshAdds s ops) :
    IndexInv (applyOps s ops) := by
  revert hinv hwf
  induction ops generalizing s with
  | nil =>
      intro hinv _
      exact hinv
  | cons op rest ih =>
      intro hinv hwf
      cases op with
      | add a =>
          obtain ⟨hop, hrest⟩ := hwf
          exact ih ((s.addAtom (some a)).1) (indexInv_addAtom s a hinv hop)
            hrest
      | remove rid =>
          obtain ⟨_, hrest⟩ := hwf
          exact ih ((s.removeAtom rid).1) (indexInv_removeAtom s rid hinv)
            hrest

/-- C6 witness: the invariant holds after a concrete add/add/remove
sequence starting from the empty store. -/
theorem index_consistency_add_remove_w :
    IndexInv (applyOps emptySpace
      [SpaceOp.add atomA, SpaceOp.add atomB, SpaceOp.remove "a"]) :=
  index_consistency_add_remove
    [SpaceOp.add atomA, SpaceOp.add atomB, SpaceOp.remove "a"] emptySpace
    indexInv_empty ⟨rfl, rfl, trivial, trivial⟩

/-- The node added before the rename in the C6 counterexample. -/
def atomX : Atom :=
  { id := "x1", type := .CAPABILITY_NODE, name := "x", payload := .node "" }

/-- C6 counterexample: after adding an atom named `"x"` and renaming it
in place to `"y"` through `setName`, the live atom's current name is
`"y"` but its id is still a member of the name-index set of `"x"` and
not of the set of `"y"` — the claimed invariant fails under `setName`
mutations. -/
theorem setName_breaks_name_index :
    ((((emptySpace.addAtom (some atomX)).1.setAtomName "x1" "y").getAtom
        "x1").map Atom.name = some "y") ∧
    "x1" ∈ ((emptySpace.addAtom (some atomX)).1.setAtomName "x1"
        "y").atoms_by_name "x" ∧
    "x1" ∉ ((emptySpace.addAtom (some atomX)).1.setAtomName "x1"
        "y").atoms_by_name "y" := by
  refine ⟨rfl, ?_, ?_⟩
  · decide
  · decide

/-! ### Microkernel lemmas shared by the scheduling/phase claims -/

theorem updateCognitiveState_states (k : CognitiveMicrokernel)
    (id : AgentId) (st' : CognitiveState) :
    (k.updateCognitiveState id st').1.agent_states =
      if (assocFind k.agent_states id).isSome
      then assocAssign k.agent_states id st' else k.agent_states := by
  cases h : assocFind k.agent_states id <;>
    simp [CognitiveMicrokernel.updateCognitiveState, h]

theorem updateCognitiveState_agentspace (k : CognitiveMicrokernel)
    (id : AgentId) (st' : CognitiveState) :
    (k.updateCognitiveState id st').1.agentspace = k.agentspace := by
  cases h : assocFind k.agent_states id <;>
    simp [CognitiveMicrokernel.updateCognitiveState, h]

theorem foldl_addToAttentionalFocus_atoms (ids : List AtomId)
    (sp : AgentSpace) :
    (ids.foldl (fun s i => s.addToAttentionalFocus i) sp).atoms = sp.atoms := by
  induction ids generalizing sp with
  | nil => rfl
  | cons i rest ih => exact ih (sp.addToAttentionalFocus i)

theorem updateAttentionValues_atom_ids (sp : AgentSpace) :
    sp.updateAttentionValues.atoms.map (fun p => p.1) =
      sp.atoms.map (fun p => p.1) := by
  simp [AgentSpace.updateAttentionValues, List.map_map, Function.comp]

/-- Every phase handler's final visible effect on the state table:
after processing a task for a registered agent, the agent's stored
phase is the canonical successor of the task's phase. -/
theorem processTask_phase_step (k : CognitiveMicrokernel)
    (t : CognitiveTask) (st : CognitiveState)
    (h : assocFind k.agent_states t.agent_id = some st) :
    ∃ st', assocFind (k.processTask t).agent_states t.agent_id = some st' ∧
      st'.current_phase = nextPhase t.phase := by
  obtain ⟨tid, taid, ph, d, ps, pr⟩ := t
  simp only at h
  cases ph with
  | PERCEPTION =>
      refine ⟨{ st with current_phase := .ATTENTION }, ?_, rfl⟩
      simp only [CognitiveMicrokernel.processTask,
        CognitiveMicrokernel.executePhaseFunction,
        CognitiveMicrokernel.processPerceptionPhase,
        CognitiveMicrokernel.getCognitiveState, updateCognitiveState_states]
      simp [h, assocFind_assign_self]
  | ATTENTION =>
      refine ⟨{ st with
        current_phase := .REASONING
        current_focus := (k.agentspace.getMostImportantAtoms 5).map
          (fun a => a.id) }, ?_, rfl⟩
      simp only [CognitiveMicrokernel.processTask,
        CognitiveMicrokernel.executePhaseFunction,
        CognitiveMicrokernel.processAttentionPhase,
        CognitiveMicrokernel.selectAttentionalFocus,
        CognitiveMicrokernel.getCognitiveState, updateCognitiveState_states]
      simp [h, assocFind_assign_self]
  | REASONING =>
      refine ⟨{ st with current_phase := .PLANNING }, ?_, rfl⟩
      simp only [CognitiveMicrokernel.processTask,
        CognitiveMicrokernel.executePhaseFunction,
        CognitiveMicrokernel.processReasoningPhase,
        CognitiveMicrokernel.performReasoning,
        CognitiveMicrokernel.getCognitiveState, updateCognitiveState_states]
      simp [h, assocFind_assign_self]
  | PLANNING =>
      refine ⟨{ st with
        intentions := st.goals.map (fun g => "plan_for_" ++ g)
        current_phase := .EXECUTION }, ?_, rfl⟩
      simp only [CognitiveMicrokernel.processTask,
        CognitiveMicrokernel.executePhaseFunction,
        CognitiveMicrokernel.processPlanningPhase,
        CognitiveMicrokernel.createActionPlans,
        CognitiveMicrokernel.getCognitiveState, updateCognitiveState_states]
      simp [h, assocFind_assign_self]
  | EXECUTION =>
      refine ⟨{ st with current_phase := .LEARNING }, ?_, rfl⟩
      simp only [CognitiveMicrokernel.processTask,
        CognitiveMicrokernel.executePhaseFunction,
        CognitiveMicrokernel.processExecutionPhase,
        CognitiveMicrokernel.executeActions,
        CognitiveMicrokernel.getCognitiveState, updateCognitiveState_states]
      simp [h, assocFind_assign_self]
  | LEARNING =>
      refine ⟨{ st with current_phase := .REFLECTION }, ?_, rfl⟩
      simp only [CognitiveMicrokernel.processTask,
        CognitiveMicrokernel.executePhaseFunction,
        CognitiveMicrokernel.processLearningPhase,
        CognitiveMicrokernel.updateKnowledge]
      split <;>
        simp [CognitiveMicrokernel.getCognitiveState,
          updateCognitiveState_states, h, assocFind_assign_self]
  | REFLECTION =>
      refine ⟨{ st with current_phase := .PERCEPTION }, ?_, rfl⟩
      simp only [CognitiveMicrokernel.processTask,
        CognitiveMicrokernel.executePhaseFunction,
        CognitiveMicrokernel.processReflectionPhase,
        CognitiveMicrokernel.evaluatePerformance,
        CognitiveMicrokernel.getCognitiveState, updateCognitiveState_states]
      simp [h, assocFind_assign_self]

/-- Draining the seven tasks of one cycle (in enqueue order) for a
registered agent ends with the stored phase back at `PERCEPTION`. -/
theorem drain_canonical (k : CognitiveMicrokernel) (id : AgentId)
    (st : CognitiveState) (tasks : List CognitiveTask)
    (h : assocFind k.agent_states id = some st)
    (hmap : tasks.map (fun t => t.phase) = canonicalPhases)
    (hag : ∀ t ∈ tasks, t.agent_id = id) :
    ∃ st', assocFind (k.processTasks tasks).agent_states id = some st' ∧
      st'.current_phase = .PERCEPTION := by
  have hlen : tasks.length = 7 := by
    have hl := congrArg List.length hmap
    simpa [canonicalPhases] using hl
  obtain ⟨t0, tasks, rfl⟩ := List.exists_of_length_succ tasks hlen
  rw [List.length_cons, Nat.succ_inj] at hlen
  obtain ⟨t1, tasks, rfl⟩ := List.exists_of_length_succ tasks hlen
  rw [List.length_cons, Nat.succ_inj] at hlen
  obtain ⟨t2, tasks, rfl⟩ := List.exists_of_length_succ tasks hlen
  rw [List.length_cons, Nat.succ_inj] at hlen
  obtain ⟨t3, tasks, rfl⟩ := List.exists_of_length_succ tasks hlen
  rw [List.length_cons, Nat.succ_inj] at hlen
  obtain ⟨t4, tasks, rfl⟩ := List.exists_of_length_succ tasks hlen
  rw [List.length_cons, Nat.succ_inj] at hlen
  obtain ⟨t5, tasks, rfl⟩ := List.exists_of_length_succ tasks hlen
  rw [List.length_cons, Nat.succ_inj] at hlen
  obtain ⟨t6, tasks, rfl⟩ := List.exists_of_length_succ tasks hlen
  rw [List.length_cons, Nat.succ_inj] at hlen
  have htasks : tasks = [] := List.length_eq_zero.mp hlen
  subst htasks
  simp only [List.map_cons, List.map_nil, canonicalPhases, List.cons.injEq,
    and_true] at hmap
  obtain ⟨hp0, hp1, hp2, hp3, hp4, hp5, hp6⟩ := hmap
  have ha0 : t0.agent_id = id := hag t0 (by simp)
  have ha1 : t1.agent_id = id := hag t1 (by simp)
  have ha2 : t2.agent_id = id := hag t2 (by simp)
  have ha3 : t3.agent_id = id := hag t3 (by simp)
  have ha4 : t4.agent_id = id := hag t4 (by simp)
  have ha5 : t5.agent_id = id := hag t5 (by simp)
  have ha6 : t6.agent_id = id := hag t6 (by simp)
  obtain ⟨s1, f1, _⟩ := processTask_phase_step k t0 st (by rw [ha0]; exact h)
  rw [ha0] at f1
  obtain ⟨s2, f2, _⟩ := processTask_phase_step (k.processTask t0) t1 s1
    (by rw [ha1]; exact f1)
  rw [ha1] at f2
  obtain ⟨s3, f3, _⟩ := processTask_phase_step ((k.processTask t0).processTask
    t1) t2 s2 (by rw [ha2]; exact f2)
  rw [ha2] at f3
  obtain ⟨s4, f4, _⟩ := processTask_phase_step (((k.processTask
    t0).processTask t1).processTask t2) t3 s3 (by rw [ha3]; exact f3)
  rw [ha3] at f4
  obtain ⟨s5, f5, _⟩ := processTask_phase_step ((((k.processTask
    t0).processTask t1).processTask t2).processTask t3) t4 s4
    (by rw [ha4]; exact f4)
  rw [ha4] at f5
  obtain ⟨s6, f6, _⟩ := processTask_phase_step (((((k.processTask
    t0).processTask t1).processTask t2).processTask t3).processTask t4) t5 s5
    (by rw [ha5]; exact f5)
  rw [ha5] at f6
  obtain ⟨s7, f7, hph7⟩ := processTask_phase_step ((((((k.processTask
    t0).processTask t1).processTask t2).processTask t3).processTask
    t4).processTask t5) t6 s6 (by rw [ha6]; exact f6)
  rw [ha6] at f7
  rw [hp6] at hph7
  exact ⟨s7, f7, hph7⟩

/-! ### C1 — cycle scheduling: priorities and ordering -/

/-- C1 counterexample: `scheduleCognitivePhase` never sets a task's
priority, so all seven tasks enqueued by one `runCognitiveCycle` call
carry the default priority 0 — the priorities are not strictly
decreasing with phase index, and the priority queue therefore cannot by
itself order phase `i` before phase `i+1`. -/
theorem runCognitiveCycle_priorities_all_zero :
    ((kernelA1.runCognitiveCycle "a1").task_queue.map (fun t => t.priority) =
      [0, 0, 0, 0, 0, 0, 0]) ∧
    ¬ List.Chain' (fun a b : Int => a > b)
        ((kernelA1.runCognitiveCycle "a1").task_queue.map
          (fun t => t.priority)) := by
  have hmap : (kernelA1.runCognitiveCycle "a1").task_queue.map
      (fun t => t.priority) = [0, 0, 0, 0, 0, 0, 0] := by decide
  refine ⟨hmap, ?_⟩
  rw [hmap]
  simp [List.chain'_cons]

/-- C1 (amended): one `runCognitiveCycle` call for a registered agent
enqueues exactly 7 tasks, one per phase in canonical order of enqueue,
all for that agent — but every task carries the same priority 0, so the
phase ordering is not encoded in the priorities; when the 7 tasks are
processed in enqueue (FIFO) order, the agent's final stored phase is
`PERCEPTION`. -/
theorem runCognitiveCycle_canonical_order (k : CognitiveMicrokernel)
    (id : AgentId) (st : CognitiveState)
    (h : assocFind k.agent_states id = some st) (hq : k.task_queue = []) :
    (k.runCognitiveCycle id).task_queue.map (fun t => t.phase) =
      canonicalPhases ∧
    (∀ t ∈ (k.runCognitiveCycle id).task_queue, t.agent_id = id) ∧
    (∀ t ∈ (k.runCognitiveCycle id).task_queue, t.priority = 0) ∧
    (k.runCognitiveCycle id).task_queue.length = 7 ∧
    (k.runCognitiveCycle id).total_cycles = k.total_cycles + 1 ∧
    ∃ st', assocFind ((k.runCognitiveCycle id).processTasks
        (k.runCognitiveCycle id).task_queue).agent_states id = some st' ∧
      st'.current_phase = .PERCEPTION := by
  have hhas : k.hasAgent id = true := by
    simp [CognitiveMicrokernel.hasAgent, h]
  have hmap : (k.runCognitiveCycle id).task_queue.map (fun t => t.phase) =
      canonicalPhases := by
    simp [CognitiveMicrokernel.runCognitiveCycle, hhas, canonicalPhases,
      CognitiveMicrokernel.scheduleCognitivePhase,
      CognitiveMicrokernel.scheduleTask, hq]
  have hag : ∀ t ∈ (k.runCognitiveCycle id).task_queue, t.agent_id = id := by
    simp [CognitiveMicrokernel.runCognitiveCycle, hhas, canonicalPhases,
      CognitiveMicrokernel.scheduleCognitivePhase,
      CognitiveMicrokernel.scheduleTask, hq]
  have hstates : (k.runCognitiveCycle id).agent_states = k.agent_states := by
    simp [CognitiveMicrokernel.runCognitiveCycle, hhas, canonicalPhases,
      CognitiveMicrokernel.scheduleCognitivePhase,
      CognitiveMicrokernel.scheduleTask]
  refine ⟨hmap, hag, ?_, ?_, ?_, ?_⟩
  · simp [CognitiveMicrokernel.runCognitiveCycle, hhas, canonicalPhases,
      CognitiveMicrokernel.scheduleCognitivePhase,
      CognitiveMicrokernel.scheduleTask, hq]
  · simp [CognitiveMicrokernel.runCognitiveCycle, hhas, canonicalPhases,
      CognitiveMicrokernel.scheduleCognitivePhase,
      CognitiveMicrokernel.scheduleTask, hq]
  · simp [CognitiveMicrokernel.runCognitiveCycle, hhas, canonicalPhases,
      CognitiveMicrokernel.scheduleCognitivePhase,
      CognitiveMicrokernel.scheduleTask]
  · exact drain_canonical (k.runCognitiveCycle id) id st _
      (by rw [hstates]; exact h) hmap hag

/-- C1 witness: draining the cycle of the concrete one-agent kernel in
FIFO order leaves the agent back in the `PERCEPTION` phase. -/
theorem runCognitiveCycle_canonical_order_w :
    ∃ st', assocFind ((kernelA1.runCognitiveCycle "a1").processTasks
        (kernelA1.runCognitiveCycle "a1").task_queue).agent_states "a1" =
      some st' ∧ st'.current_phase = .PERCEPTION :=
  (runCognitiveCycle_canonical_order kernelA1 "a1" stateA1 (by decide)
    (by decide)).2.2.2.2.2

/-! ### C3 — Execution phase has no cap of 3 -/

/-- C3: the Execution handler splits the `action_plans` context
variable and records the full token count — with four plans it records
`"4"`, not `min(4,3) = 3`; it caps nothing and never reads the agent's
stored intentions (the kernel is returned unchanged).  The repo's own
CognitiveModelGuide.md documents `state.intentions[:3]` ("Execute top 3
intentions"), which the C++ code does not implement. -/
theorem executeActions_no_cap :
    (assocFind (emptyKernel.executeActions
        { agent_id := "a1",
          vars := [("action_plans",
            "plan_for_g1,plan_for_g2,plan_for_g3,plan_for_g4")] }).2.vars
        "actions_executed" = some "4") ∧
    (emptyKernel.executeActions
        { agent_id := "a1",
          vars := [("action_plans",
            "plan_for_g1,plan_for_g2,plan_for_g3,plan_for_g4")] }).1 =
      emptyKernel :=
  ⟨by decide, rfl⟩

/-! ### C4 — no atom is created during a scheduled cycle -/

/-- C4: in a drained scheduled cycle for an agent with one active goal
the knowledge store stays empty — each phase task starts from a fresh
context built only from its (empty) task parameters, so the
`actions_executed` count Learning parses is 0 and `addMemoryNode` is
never reached.  Learning does create exactly one memory atom when its
own context carries a positive count, and no handler other than
Learning ever changes the set of stored atoms. -/
theorem scheduled_cycle_creates_no_atoms :
    ((kernelA1.runCognitiveCycle "a1").processTasks
        (kernelA1.runCognitiveCycle "a1").task_queue).agentspace.atoms =
      [] ∧
    (kernelA1.runCognitiveCycle "a1").task_queue.map (fun t => t.phase) =
      canonicalPhases ∧
    (kernelA1.updateKnowledge
        { agent_id := "a1", vars := [("actions_executed", "2")]
        }).1.agentspace.atoms.length = 1 ∧
    (∀ (k : CognitiveMicrokernel) (id : AgentId) (ctx : CognitiveContext),
      (k.processPerceptionPhase id ctx).1.agentspace.atoms =
        k.agentspace.atoms ∧
      (k.processReasoningPhase id ctx).1.agentspace.atoms =
        k.agentspace.atoms ∧
      (k.processPlanningPhase id ctx).1.agentspace.atoms =
        k.agentspace.atoms ∧
      (k.processExecutionPhase id ctx).1.agentspace.atoms =
        k.agentspace.atoms ∧
      (k.processReflectionPhase id ctx).1.agentspace.atoms =
        k.agentspace.atoms ∧
      (k.processAttentionPhase id ctx).1.agentspace.atoms.map
          (fun p => p.1) = k.agentspace.atoms.map (fun p => p.1)) := by
  refine ⟨by decide, by decide, by decide, ?_⟩
  intro k id ctx
  refine ⟨?_, ?_, ?_, ?_, ?_, ?_⟩
  · simp [CognitiveMicrokernel.processPerceptionPhase,
      updateCognitiveState_agentspace]
  · simp [CognitiveMicrokernel.processReasoningPhase,
      updateCognitiveState_agentspace]
  · simp [CognitiveMicrokernel.processPlanningPhase,
      CognitiveMicrokernel.createActionPlans,
      updateCognitiveState_agentspace]
  · simp [CognitiveMicrokernel.processExecutionPhase,
      CognitiveMicrokernel.executeActions,
      updateCognitiveState_agentspace]
  · simp [CognitiveMicrokernel.processReflectionPhase,
      CognitiveMicrokernel.evaluatePerformance,
      updateCognitiveState_agentspace]
  · simp [CognitiveMicrokernel.processAttentionPhase,
      CognitiveMicrokernel.selectAttentionalFocus,
      updateCognitiveState_agentspace, updateAttentionValues_atom_ids,
      foldl_addToAttentionalFocus_atoms]

end SwarmCog
